import Mathlib

set_option autoImplicit false

namespace Fruit

/-!
A shallow embedding of the fruit dependency-injection container, checked against
src/include/fruit/partial_component.h (the builder surface of the repository) and, for
the parts of the library whose implementation files are not in the repository excerpt
(the component compiler and the injector runtime), against the specification that was
written for them.
-/

/-- Decidable equality of `Except` results, used to compare seal outcomes. -/
instance {ε α : Type} [DecidableEq ε] [DecidableEq α] : DecidableEq (Except ε α) :=
  fun a b =>
    match a, b with
    | .ok x, .ok y => decidable_of_iff (x = y) (by simp)
    | .error x, .error y => decidable_of_iff (x = y) (by simp)
    | .ok _, .error _ => isFalse (by simp)
    | .error _, .ok _ => isFalse (by simp)

/-- Modelled from the spec: an opaque, equality-comparable, hashable identifier for a
host-language type (spec §3 "TypeId"); the host's type-to-id mapping is injective, so the
model takes `TypeId` to be an abstract numeric code. -/
abbrev TypeId := Nat

/-- Modelled from the spec: one parameter of a signature, flagged `injected` or
`assisted` (spec §3 "Signature"). -/
inductive Param where
  | injected (t : TypeId)
  | assisted (t : TypeId)
deriving DecidableEq, Repr

/-- Modelled from the spec: descriptor of a callable: return TypeId plus an ordered list
of parameters, each flagged injected or assisted (spec §3 "Signature"). -/
structure Signature where
  ret : TypeId
  params : List Param
deriving DecidableEq, Repr

/-- The injected dependencies of a signature, in parameter order; assisted parameters
are skipped (spec §4.D.6: assisted parameters are not edges of the dependency graph). -/
def injectedDeps (sig : Signature) : List TypeId :=
  sig.params.filterMap fun p =>
    match p with
    | .injected t => some t
    | .assisted _ => none

/-- Modelled from the spec: a host-language callable value. `code` identifies the
function body (an opaque thunk reference); `captures` lists the state captured by the
callable (empty for a plain function or a capture-less lambda). `registerProvider` and
`registerFactory` accept the callable only through conversion to a plain function
pointer of the signature, which exists exactly when there is no captured state
(src/include/fruit/partial_component.h lines 139-145 and 243-251, where the parameter
type is a function-pointer type `fruit::impl::FunctionSignature<Function>*` resp.
`fruit::impl::ConstructSignature<...>*`; spec §4.C "Contract"). -/
structure Callable where
  sig : Signature
  captures : List TypeId
  code : Nat
deriving DecidableEq, Repr

/-- Modelled from the spec: the error taxonomy of spec §7. `statefulCallable` stands for
the compile-time diagnostic produced when a callable with captured state fails to
convert to a plain function pointer (spec §4.C "Contract" names the rejection but the §7
table has no name for it). Compile-time rejections and seal-time failures are modelled
alike as error values. -/
inductive FruitError where
  | notABaseClassOf (i c : TypeId)
  | parameterIsNotASignature
  | constructorDoesNotExist
  | duplicateBinding (t : TypeId) (srcA srcB : Nat)
  | unsatisfiedDependency (t dependant : TypeId)
  | cyclicDependency (path : List TypeId)
  | requirementsNotSatisfied
  | providerReturnedNull
  | cycleAtRuntime (t : TypeId)
  | statefulCallable
deriving DecidableEq, Repr

/-- Modelled from the spec: the non-install binding kinds (spec §3 "BindingKind"). For
`ctorB`/`provB` the bound type is the signature's return type; for `factB` the bound
type `target` is the TypeId of the user-facing callable type (supplied by the host's
type model, spec §4.A), and the signature's assisted parameters are the factory's
caller-supplied arguments. -/
inductive BKind where
  | ctorB (sig : Signature)
  | instB (target : TypeId) (handle : Nat)
  | provB (sig : Signature) (thunk : Nat)
  | bindB (iface impl : TypeId)
  | factB (target : TypeId) (sig : Signature) (thunk : Nat)
deriving DecidableEq, Repr

/-- The TypeId a binding declaration binds (the key it will contribute to the binding
map, spec §4.D.2). -/
def BKind.target : BKind → TypeId
  | .ctorB sig => sig.ret
  | .instB t _ => t
  | .provB sig _ => sig.ret
  | .bindB i _ => i
  | .factB t _ _ => t

/-- The injected dependencies of a binding declaration (spec §4.D.5/§4.D.6: the
injected-dependency graph; a `bindB` alias depends on its implementation type, a factory
depends only on its injected parameters — assisted parameters are not edges). -/
def BKind.deps : BKind → List TypeId
  | .ctorB sig => injectedDeps sig
  | .instB _ _ => []
  | .provB sig _ => injectedDeps sig
  | .bindB _ c => [c]
  | .factB _ sig _ => injectedDeps sig

/-- Modelled from the spec: a declaration accumulated by the builder (spec §3
"Declaration"/"BindingKind"): either a binding, tagged with whether it is a multibinding
contribution ("Multibinding{…} — any of the above tagged as a multibind contribution"),
or an install of another partial component ("Install{ other: PartialRef }"). The install
declaration embeds the installed component's declarations together with its provided /
provided-multibinding / required type sets; in this pure model a partial component is
identified with that data, so the spec's "identity of the source Partial" (§4.D.1)
becomes equality of that data. The source-order index of spec §3 is not stored: it is
the declaration's position in the flattened declaration list. -/
inductive Decl where
  | binding (multi : Bool) (k : BKind)
  | installD (decls : List Decl) (provided providedMulti required : List TypeId)

mutual

/-- Boolean equality on declarations (the derive handler does not support the nested
occurrence of `List Decl`). -/
def Decl.beq : Decl → Decl → Bool
  | .binding m k, .binding m' k' => m == m' && k == k'
  | .installD ds p q r, .installD es p' q' r' =>
      Decl.beqList ds es && p == p' && q == q' && r == r'
  | .binding _ _, .installD _ _ _ _ => false
  | .installD _ _ _ _, .binding _ _ => false

/-- Boolean equality on declaration lists. -/
def Decl.beqList : List Decl → List Decl → Bool
  | [], [] => true
  | d :: ds, e :: es => Decl.beq d e && Decl.beqList ds es
  | [], _ :: _ => false
  | _ :: _, [] => false

end

mutual

theorem Decl.beq_iff : ∀ (a b : Decl), Decl.beq a b = true ↔ a = b
  | .binding m k, .binding m' k' => by
      simp [Decl.beq, Bool.and_eq_true, beq_iff_eq, Decl.binding.injEq]
  | .installD ds p q r, .installD es p' q' r' => by
      simp [Decl.beq, Bool.and_eq_true, beq_iff_eq, Decl.installD.injEq,
        Decl.beqList_iff ds es]
      tauto
  | .binding _ _, .installD _ _ _ _ => by simp [Decl.beq]
  | .installD _ _ _ _, .binding _ _ => by simp [Decl.beq]

theorem Decl.beqList_iff : ∀ (a b : List Decl), Decl.beqList a b = true ↔ a = b
  | [], [] => by simp [Decl.beqList]
  | d :: ds, e :: es => by
      simp [Decl.beqList, Bool.and_eq_true, Decl.beq_iff d e, Decl.beqList_iff ds es]
  | [], _ :: _ => by simp [Decl.beqList]
  | _ :: _, [] => by simp [Decl.beqList]

end

instance : DecidableEq Decl := fun a b =>
  decidable_of_iff (Decl.beq a b = true) (Decl.beq_iff a b)

/-- Modelled from the spec: a partially constructed component (spec §3 "Partial",
src/include/fruit/partial_component.h `PartialComponent`): an ordered list of
declarations plus the type sets the builder tracks — `provided` (keys that will appear
after compilation), `providedMulti` (the provided multiset of multibound types, spec
§4.C row "addMultibinding…") and `required` (keys the user must still supply before
sealing). -/
structure PartialComponent where
  decls : List Decl
  provided : List TypeId
  providedMulti : List TypeId
  required : List TypeId
deriving DecidableEq

/-- `fruit::createComponent()`: the empty partial component, no provided or required
types (spec §6). -/
def createComponent : PartialComponent := ⟨[], [], [], []⟩

/-- `PartialComponent::bind<I, C>()` (src/include/fruit/partial_component.h lines
52-57): checks `fruit::impl::NotABaseClassOf<I, C>` and binds the base class I to the
implementation C. Modelled from the spec for the missing impl headers: the host's
base-class relation is the parameter `isBase`, failure of the check is the
`NotABaseClassOf(I, C)` compile-time diagnostic (spec §7), and on success the operation
adds I to provided and adds C to required if C is not already provided (spec §4.C row
`bind<I,C>()`). -/
def PartialComponent.bind (isBase : TypeId → TypeId → Bool) (i c : TypeId)
    (p : PartialComponent) : Except FruitError PartialComponent :=
  if isBase i c then
    .ok { p with
          decls := p.decls ++ [.binding false (.bindB i c)],
          provided := i :: p.provided,
          required := if c ∈ p.provided then p.required else c :: p.required }
  else
    .error (.notABaseClassOf i c)

/-- `PartialComponent::registerConstructor<Signature>()` (src/include/fruit/
partial_component.h lines 85-91). Modelled from the spec: the host's reflection
capability validates the signature (`ParameterIsNotASignature`,
`ConstructorDoesNotExist` are host-side checks outside the core, spec §2 "Out of
scope"); the operation records a constructor binding, adds the signature's return type
to provided and adds each injected parameter to required (spec §4.C row
`registerConstructor<Sig>()`). -/
def PartialComponent.registerConstructor (sig : Signature)
    (p : PartialComponent) : PartialComponent :=
  { p with
    decls := p.decls ++ [.binding false (.ctorB sig)],
    provided := sig.ret :: p.provided,
    required := injectedDeps sig ++ p.required }

/-- `PartialComponent::bindInstance(C& instance)` (src/include/fruit/partial_component.h
lines 105-109): binds C to a user-supplied instance, identified by the external handle
`h`; the value's lifetime is external to the container (spec §3 `Instance`). Adds C to
provided, no new requirements (spec §4.C row `bindInstance(x: C)`). -/
def PartialComponent.bindInstance (c : TypeId) (h : Nat)
    (p : PartialComponent) : PartialComponent :=
  { p with
    decls := p.decls ++ [.binding false (.instB c h)],
    provided := c :: p.provided }

/-- `PartialComponent::registerProvider(Function provider)` (src/include/fruit/
partial_component.h lines 139-145): the provider is passed as a plain function pointer
of its inferred signature, so a callable with captured state is rejected at compile time
(spec §4.C "Contract"); a stateless callable is registered like a constructor using its
signature (spec §4.C row `registerProvider(fn)`). -/
def PartialComponent.registerProvider (f : Callable)
    (p : PartialComponent) : Except FruitError PartialComponent :=
  if f.captures = [] then
    .ok { p with
          decls := p.decls ++ [.binding false (.provB f.sig f.code)],
          provided := f.sig.ret :: p.provided,
          required := injectedDeps f.sig ++ p.required }
  else
    .error .statefulCallable

/-- `PartialComponent::addMultibinding<I, C>()` (src/include/fruit/partial_component.h
lines 156-161): like `bind` it checks `fruit::impl::NotABaseClassOf<I, C>`, but adds a
multibinding contribution instead: multibindings are independent from bindings (the
header's comment at lines 150-152), so the contribution goes to the provided multiset
and the provided/required sets are unchanged (spec §4.C row `addMultibinding…`). -/
def PartialComponent.addMultibinding (isBase : TypeId → TypeId → Bool) (i c : TypeId)
    (p : PartialComponent) : Except FruitError PartialComponent :=
  if isBase i c then
    .ok { p with
          decls := p.decls ++ [.binding true (.bindB i c)],
          providedMulti := i :: p.providedMulti }
  else
    .error (.notABaseClassOf i c)

/-- `PartialComponent::addInstanceMultibinding(C& instance)` (src/include/fruit/
partial_component.h lines 172-176): adds a user-supplied instance as a multibinding
contribution for C; goes to the provided multiset, provided/required unchanged (spec
§4.C row `addMultibinding…`). -/
def PartialComponent.addInstanceMultibinding (c : TypeId) (h : Nat)
    (p : PartialComponent) : PartialComponent :=
  { p with
    decls := p.decls ++ [.binding true (.instB c h)],
    providedMulti := c :: p.providedMulti }

/-- `PartialComponent::addMultibindingProvider(Function provider)` (src/include/fruit/
partial_component.h lines 187-193): like `registerProvider` the provider is passed as a
plain function pointer, rejecting callables with captured state; a stateless callable is
added as a multibinding contribution for its return type (provided multiset extended,
provided/required unchanged, spec §4.C row `addMultibinding…`). -/
def PartialComponent.addMultibindingProvider (f : Callable)
    (p : PartialComponent) : Except FruitError PartialComponent :=
  if f.captures = [] then
    .ok { p with
          decls := p.decls ++ [.binding true (.provB f.sig f.code)],
          providedMulti := f.sig.ret :: p.providedMulti }
  else
    .error .statefulCallable

/-- `PartialComponent::registerFactory<AnnotatedSignature>(factory)` (src/include/fruit/
partial_component.h lines 243-251): the factory is passed as a plain function pointer
(`fruit::impl::ConstructSignature<...>*`), rejecting callables with captured state; on
success it provides the user-facing callable type `fnT` — the host TypeId of
`std::function<C(assisted args)>` — and requires only the signature's injected
parameters (spec §4.C row `registerFactory<AnnSig>(fn)`). -/
def PartialComponent.registerFactory (fnT : TypeId) (annSig : Signature) (f : Callable)
    (p : PartialComponent) : Except FruitError PartialComponent :=
  if f.captures = [] then
    .ok { p with
          decls := p.decls ++ [.binding false (.factB fnT annSig f.code)],
          provided := fnT :: p.provided,
          required := injectedDeps annSig ++ p.required }
  else
    .error .statefulCallable

/-- `PartialComponent::install(const Component&)` (src/include/fruit/partial_component.h
lines 268-274): adds the bindings of `other` to the current component. The declarations
record an install node (flattened at seal time, spec §4.D.1); the type sets merge as
provided ← provided ∪ P, required ← (required ∪ R) \ provided-after-union (spec §4.C
row `install(c)`). -/
def PartialComponent.install (p : PartialComponent)
    (other : PartialComponent) : PartialComponent :=
  { decls := p.decls ++ [.installD other.decls other.provided other.providedMulti other.required],
    provided := p.provided ++ other.provided,
    providedMulti := p.providedMulti ++ other.providedMulti,
    required := (p.required ++ other.required).filter
      (fun t => ¬ (t ∈ p.provided ++ other.provided)) }

/-!
The component compiler (spec §4.D). The repository excerpt contains only the builder
header, so the whole pipeline below is modelled from the spec.
-/

/-- Modelled from the spec: step 1, "Flatten installs. Depth-first collection of
declarations; the same child partial encountered twice contributes its declarations only
once (identity of the source Partial is the dedup key)" (spec §4.D.1). `visited` is the
list of install nodes already flattened; in this pure model the identity of a partial is
the partial's data, carried verbatim inside the `installD` node. Returns the flattened
declarations together with the extended visited list. -/
def flattenList : List Decl → List Decl → (List (Bool × BKind) × List Decl)
  | [], visited => ([], visited)
  | .binding m k :: rest, visited =>
      let out := flattenList rest visited
      ((m, k) :: out.1, out.2)
  | .installD ds p q r :: rest, visited =>
      if Decl.installD ds p q r ∈ visited then flattenList rest visited
      else
        let child := flattenList ds (Decl.installD ds p q r :: visited)
        let out := flattenList rest child.2
        (child.1 ++ out.1, out.2)

/-- The flattened declaration list of a partial component; a declaration's position in
this list is its source-order index (spec §3 "Declaration", §4.D.1). -/
def flatten (p : PartialComponent) : List (Bool × BKind) :=
  (flattenList p.decls []).1

/-- Flattening with the deduplication of repeated partials ignored: straight depth-first
concatenation. Used to characterise `flattenList` on install forests without repeated
partials. -/
def flatNaive : List Decl → List (Bool × BKind)
  | [] => []
  | .binding m k :: rest => (m, k) :: flatNaive rest
  | .installD ds _ _ _ :: rest => flatNaive ds ++ flatNaive rest

/-- All install nodes occurring in a declaration list, the installed partials' own
install nodes included (depth-first order). -/
def declsNodes : List Decl → List Decl
  | [] => []
  | .binding _ _ :: rest => declsNodes rest
  | .installD ds p q r :: rest =>
      .installD ds p q r :: (declsNodes ds ++ declsNodes rest)

/-- Modelled from the spec: the concrete production strategy of a resolved binding
(spec §3 "ResolvedBinding"); `aliasS` is a `BindTo` entry after resolution. -/
inductive Strategy where
  | ctorS (sig : Signature)
  | instS (handle : Nat)
  | provS (sig : Signature) (thunk : Nat)
  | aliasS (impl : TypeId)
  | factS (sig : Signature) (thunk : Nat)
deriving DecidableEq, Repr

/-- Modelled from the spec: a resolved binding: the production strategy, its injected
dependency list in canonical (signature) order, and the source index of the declaration
it came from, kept for deterministic diagnostics (spec §3 "BindingMap",
"ResolvedBinding"). -/
structure ResolvedBinding where
  strategy : Strategy
  deps : List TypeId
  srcIndex : Nat
deriving DecidableEq, Repr

/-- Modelled from the spec: `TypeId → ResolvedBinding` for normal bindings plus the
multibinding contributions (spec §3 "BindingMap"). Both are association lists in
first-occurrence resp. declaration order; `multis` may repeat keys freely (spec §3
invariant 2). -/
structure BindingMap where
  normal : List (TypeId × ResolvedBinding)
  multis : List (TypeId × ResolvedBinding)
deriving DecidableEq, Repr

/-- Normal-binding lookup: multibinding contributions are invisible here (spec §4.C
"Contract": retrieving the normal binding ignores multibindings). -/
def BindingMap.lookupN (bm : BindingMap) (t : TypeId) : Option ResolvedBinding :=
  (bm.normal.find? (fun e => e.1 == t)).map (fun e => e.2)

/-- The multibinding contributions for `t`, in declaration (flatten) order; normal
bindings are invisible here (spec §4.C "Contract", §4.E `getMultibindings`). -/
def BindingMap.multiFor (bm : BindingMap) (t : TypeId) : List ResolvedBinding :=
  (bm.multis.filter (fun e => e.1 == t)).map (fun e => e.2)

/-- The non-multibinding declarations of a flattened list, each paired with its source
index, counting from `n` (spec §4.D.2). -/
def normalsOf : List (Bool × BKind) → Nat → List (Nat × BKind)
  | [], _ => []
  | (true, _) :: rest, n => normalsOf rest (n + 1)
  | (false, k) :: rest, n => (n, k) :: normalsOf rest (n + 1)

/-- The multibinding declarations of a flattened list, each paired with its source
index, counting from `n` (spec §4.D.2). -/
def multisOf : List (Bool × BKind) → Nat → List (Nat × BKind)
  | [], _ => []
  | (true, k) :: rest, n => (n, k) :: multisOf rest (n + 1)
  | (false, _) :: rest, n => multisOf rest (n + 1)

/-- Whether a binding declaration is a `BindTo` (spec §4.D.3's idempotence exception is
restricted to `BindTo` declarations). -/
def BKind.isBind : BKind → Bool
  | .bindB _ _ => true
  | _ => false

/-- Modelled from the spec: steps 2 and 3, indexing and the duplicate check: two
non-multibinding declarations for one TypeId fail with `DuplicateBinding(type, sourceA,
sourceB)` except that two `BindTo` declarations with identical `(I, C)` are idempotent
(spec §4.D.2-3). The accumulator keeps keys in first-occurrence order. -/
def buildNormal : List (Nat × BKind) → List (TypeId × Nat × BKind) →
    Except FruitError (List (TypeId × Nat × BKind))
  | [], acc => .ok acc
  | (i, k) :: rest, acc =>
      match acc.find? (fun e => e.1 == k.target) with
      | none => buildNormal rest (acc ++ [(k.target, i, k)])
      | some (_, j, k') =>
          if k' = k ∧ k.isBind then buildNormal rest acc
          else .error (.duplicateBinding k.target j i)

/-- Modelled from the spec: collapsing `BindTo` chains `A→B→C` to `A→C` (spec §4.D.4).
The fuel bounds chain length; an alias loop exhausts it. -/
def followAlias (entries : List (TypeId × Nat × BKind)) : Nat → TypeId →
    Except FruitError TypeId
  | 0, t => .error (.cyclicDependency [t])
  | fuel + 1, t =>
      match entries.find? (fun e => e.1 == t) with
      | some (_, _, .bindB _ c) => followAlias entries fuel c
      | _ => .ok t

/-- The strategy a binding declaration resolves to (spec §3 "ResolvedBinding"). -/
def stratOf : BKind → Strategy
  | .ctorB sig => .ctorS sig
  | .instB _ h => .instS h
  | .provB sig th => .provS sig th
  | .bindB _ c => .aliasS c
  | .factB _ sig th => .factS sig th

/-- Modelled from the spec: step 4, resolve `BindTo`: ensure the implementation is a
key, reject self-loops, collapse chains so that resolution follows I → C transparently
(spec §4.D.4); other declarations resolve to their strategy and injected dependency
list. The spec does not name the error for a `BindTo` whose implementation is missing;
the model reports it as `UnsatisfiedDependency(C, I)` in spec §7's taxonomy, and reports
a self-loop as the one-step cycle `[t, t]`. -/
def resolveEntry (entries : List (TypeId × Nat × BKind)) :
    TypeId × Nat × BKind → Except FruitError (TypeId × ResolvedBinding)
  | (t, i, .bindB _ c) =>
      if c = t then .error (.cyclicDependency [t, t])
      else if (entries.find? (fun e => e.1 == c)).isSome then
        match followAlias entries (entries.length + 1) c with
        | .error e => .error e
        | .ok fin => .ok (t, ⟨.aliasS fin, [fin], i⟩)
      else .error (.unsatisfiedDependency c t)
  | (t, i, k) => .ok (t, ⟨stratOf k, k.deps, i⟩)

/-- Resolves every indexed normal entry (spec §4.D.4), keeping key order. -/
def resolveAll (entries : List (TypeId × Nat × BKind)) :
    List (TypeId × Nat × BKind) → Except FruitError (List (TypeId × ResolvedBinding))
  | [] => .ok []
  | e :: rest =>
      match resolveEntry entries e with
      | .error err => .error err
      | .ok r =>
          match resolveAll entries rest with
          | .error err => .error err
          | .ok rs => .ok (r :: rs)

/-- The multibinding contributions resolved to bindings (spec §4.D.2: `TypeId →
list<declaration>` for multibindings; contributions accumulate freely, in declaration
order). -/
def resolveMultis (ms : List (Nat × BKind)) : List (TypeId × ResolvedBinding) :=
  ms.map (fun e => (e.2.target, ⟨stratOf e.2, e.2.deps, e.1⟩))

/-- Modelled from the spec: step 5, the closure check: every injected dependency TypeId
of every binding must be a key or in the declared required set, otherwise
`UnsatisfiedDependency(type, dependant)` (spec §4.D.5). -/
def closureCheck (keys req : List TypeId) :
    List (TypeId × ResolvedBinding) → Except FruitError Unit
  | [] => .ok ()
  | (t, rb) :: rest =>
      match rb.deps.find? (fun d => !(keys.contains d || req.contains d)) with
      | some d => .error (.unsatisfiedDependency d t)
      | none => closureCheck keys req rest

mutual

/-- Modelled from the spec: step 6, classical depth-first search with gray/black
coloring over the injected-dependency graph; a back edge to a gray node yields the cycle
path from that node back to itself (spec §4.D.6). `gray` is the path of nodes currently
being visited, root first; returns the extended black set. The fuel bounds recursion
depth; callers pass more fuel than there are keys, so it never runs out on the graphs
the compiler builds. -/
def dfsVisit (adj : TypeId → List TypeId) : Nat → List TypeId → List TypeId → TypeId →
    Except (List TypeId) (List TypeId)
  | 0, _, black, _ => .ok black
  | fuel + 1, gray, black, t =>
      if t ∈ black then .ok black
      else if t ∈ gray then .error ((gray.dropWhile (fun x => x != t)) ++ [t])
      else
        match dfsList adj fuel (gray ++ [t]) black (adj t) with
        | .error p => .error p
        | .ok black' => .ok (t :: black')

/-- Depth-first search over a dependency list (spec §4.D.6). -/
def dfsList (adj : TypeId → List TypeId) : Nat → List TypeId → List TypeId →
    List TypeId → Except (List TypeId) (List TypeId)
  | _, _, black, [] => .ok black
  | fuel, gray, black, d :: ds =>
      match dfsVisit adj fuel gray black d with
      | .error p => .error p
      | .ok black' => dfsList adj fuel gray black' ds

end

/-- The injected-dependency adjacency of the resolved normal bindings (spec §4.D.6). -/
def adjOf (entries : List (TypeId × ResolvedBinding)) (t : TypeId) : List TypeId :=
  match entries.find? (fun e => e.1 == t) with
  | some e => e.2.deps
  | none => []

/-- Runs the cycle detection from every key, in key order, threading the black set
(spec §4.D.6: back edge → `CyclicDependency(path)`). -/
def cycleGo (adj : TypeId → List TypeId) (fuel : Nat) :
    List TypeId → List TypeId → Except FruitError Unit
  | [], _ => .ok ()
  | t :: ts, black =>
      match dfsVisit adj fuel [] black t with
      | .error path => .error (.cyclicDependency path)
      | .ok black' => cycleGo adj fuel ts black'

/-- Modelled from the spec: a sealed component: the binding map plus the provided set
(all keys) and the declared required set (spec §3 "Component (sealed)", §4.D closing
paragraph). -/
structure Component where
  map : BindingMap
  provided : List TypeId
  required : List TypeId
deriving DecidableEq, Repr

/-- Modelled from the spec: steps 2-7 of sealing, on an already flattened declaration
list: index and check duplicates, resolve `BindTo`, check closure against the declared
required set, detect cycles, and emit the binding map (spec §4.D). -/
def sealFlat (fds : List (Bool × BKind)) (declaredReq : List TypeId) :
    Except FruitError Component :=
  match buildNormal (normalsOf fds 0) [] with
  | .error e => .error e
  | .ok norm =>
      match resolveAll norm norm with
      | .error e => .error e
      | .ok entries =>
          match closureCheck (entries.map (fun e => e.1)) declaredReq
              (entries ++ resolveMultis (multisOf fds 0)) with
          | .error e => .error e
          | .ok _ =>
              match cycleGo (adjOf entries) (entries.length + 1)
                  (entries.map (fun e => e.1)) [] with
              | .error e => .error e
              | .ok _ =>
                  .ok ⟨⟨entries, resolveMultis (multisOf fds 0)⟩,
                    entries.map (fun e => e.1), declaredReq⟩

/-- Modelled from the spec: sealing a partial into a validated component: flatten
installs (spec §4.D.1), then run steps 2-7 on the flattened declarations; `declaredReq`
is the contract the caller spells out at seal time (spec §6). -/
def PartialComponent.seal (p : PartialComponent) (declaredReq : List TypeId) :
    Except FruitError Component :=
  sealFlat (flatten p) declaredReq

/-!
The injector runtime (spec §4.E), modelled from the spec: the implementation files are
not in the repository excerpt.
-/

/-- A key of the injector's memo table: a normal binding's type, or the idx-th
multibinding contribution for a type (multibindings and normal bindings live in
independent namespaces, spec §4.C "Contract"). -/
inductive IKey where
  | norm (t : TypeId)
  | multiK (t : TypeId) (idx : Nat)
deriving DecidableEq, Repr

/-- A reference to a realized instance: `owned` values are allocated (and later
destroyed) by the injector, numbered by the injector's allocation counter; `external`
values are user-supplied `bindInstance` handles, whose lifetime is external (spec §3
invariant 5). -/
inductive Ref where
  | owned (n : Nat)
  | external (h : Nat)
deriving DecidableEq, Repr

/-- Modelled from the spec: the injector's state: the memo table, the construction stack
(most recently constructed key first; only injector-owned constructions are pushed) and
the allocation counter for owned instances (spec §3 "Injector", §4.E "Creation"). -/
structure InjState where
  memo : List (IKey × Ref)
  stack : List IKey
  next : Nat
deriving DecidableEq, Repr

/-- The freshly created injector: empty memo table and construction stack
(spec §4.E "Creation"). -/
def initInj : InjState := ⟨[], [], 0⟩

/-- Lookup in a memo association list (first match; keys are inserted at most once). -/
def memoLookup (m : List (IKey × Ref)) (k : IKey) : Option Ref :=
  (m.find? (fun e => e.1 == k)).map (fun e => e.2)

/-- Memo-table lookup of an injector state. -/
def lookupMemo (s : InjState) (k : IKey) : Option Ref :=
  memoLookup s.memo k

/-- `Injector(component)`: requires an empty required set (spec §4.E "Creation", §6;
failure is `RequirementsNotSatisfied`, spec §7). -/
def createInjector (c : Component) : Except FruitError InjState :=
  if c.required = [] then .ok initInj else .error .requirementsNotSatisfied

mutual

/-- Modelled from the spec: `injector.get<T>()` (spec §4.E "Operation: get"): a
memoized reference is returned as is; otherwise the binding for `T` is looked up and
realized: `Constructor`/`Provider` first get every injected dependency in the binding's
canonical order, then allocate the instance, memoize it under `T` and push `T` on the
construction stack; `Instance` returns the external handle, addressable under `T` but
not owned (not pushed); `BindTo` delegates to the implementation and memoizes the same
reference under the interface too; `Factory` allocates the user-facing closure value
(owned by the injector; its injected dependencies are resolved at invocation time, not
here). `ip` is the chain of types currently mid-construction: re-entering one fails
fast with `CycleAtRuntime` (spec §4.E "Re-entrancy"), as does running out of fuel,
which only happens on a binding map whose cycles the compiler would have rejected. -/
def get (bm : BindingMap) : Nat → List TypeId → TypeId → InjState →
    Except FruitError (Ref × InjState)
  | 0, _, t, _ => .error (.cycleAtRuntime t)
  | fuel + 1, ip, t, s =>
      if t ∈ ip then .error (.cycleAtRuntime t)
      else
        match lookupMemo s (.norm t) with
        | some r => .ok (r, s)
        | none =>
            match bm.lookupN t with
            | none => .error (.unsatisfiedDependency t t)
            | some rb =>
                match rb.strategy with
                | .instS h =>
                    .ok (.external h,
                      { s with memo := (.norm t, .external h) :: s.memo })
                | .ctorS _ =>
                    match getMany bm fuel (t :: ip) rb.deps s with
                    | .error e => .error e
                    | .ok (_, s1) =>
                        .ok (.owned s1.next,
                          { memo := (.norm t, .owned s1.next) :: s1.memo,
                            stack := .norm t :: s1.stack,
                            next := s1.next + 1 })
                | .provS _ _ =>
                    match getMany bm fuel (t :: ip) rb.deps s with
                    | .error e => .error e
                    | .ok (_, s1) =>
                        .ok (.owned s1.next,
                          { memo := (.norm t, .owned s1.next) :: s1.memo,
                            stack := .norm t :: s1.stack,
                            next := s1.next + 1 })
                | .factS _ _ =>
                    .ok (.owned s.next,
                      { memo := (.norm t, .owned s.next) :: s.memo,
                        stack := .norm t :: s.stack,
                        next := s.next + 1 })
                | .aliasS c =>
                    match get bm fuel (t :: ip) c s with
                    | .error e => .error e
                    | .ok (r, s1) =>
                        .ok (r, { s1 with memo := (.norm t, r) :: s1.memo })

/-- Modelled from the spec: gets a list of dependencies left to right, threading the
injector state (spec §4.E: "recursively get each injected dependency in the binding's
canonical order"). -/
def getMany (bm : BindingMap) : Nat → List TypeId → List TypeId → InjState →
    Except FruitError (List Ref × InjState)
  | _, _, [], s => .ok ([], s)
  | fuel, ip, t :: ts, s =>
      match get bm fuel ip t s with
      | .error e => .error e
      | .ok (r, s1) =>
          match getMany bm fuel ip ts s1 with
          | .error e => .error e
          | .ok (rs, s2) => .ok (r :: rs, s2)

end

/-- Modelled from the spec: realizes the idx-th multibinding contribution for `t`
(spec §4.E "Operation: getMultibindings": constructing any that are not yet memoized).
The contribution is memoized under `IKey.multiK t idx` — a namespace disjoint from the
normal bindings'. A bindTo-shaped contribution shares the realized implementation (via
`get`); an instance-shaped one references the external handle; constructor-, provider-
and factory-shaped ones get their injected dependencies and allocate an owned
instance. -/
def getMulti1 (bm : BindingMap) (fuel : Nat) (t : TypeId) (idx : Nat)
    (rb : ResolvedBinding) (s : InjState) : Except FruitError (Ref × InjState) :=
  match lookupMemo s (.multiK t idx) with
  | some r => .ok (r, s)
  | none =>
      match rb.strategy with
      | .instS h =>
          .ok (.external h, { s with memo := (.multiK t idx, .external h) :: s.memo })
      | .aliasS c =>
          match get bm fuel [] c s with
          | .error e => .error e
          | .ok (r, s1) =>
              .ok (r, { s1 with memo := (.multiK t idx, r) :: s1.memo })
      | _ =>
          match getMany bm fuel [] rb.deps s with
          | .error e => .error e
          | .ok (_, s1) =>
              .ok (.owned s1.next,
                { memo := (.multiK t idx, .owned s1.next) :: s1.memo,
                  stack := .multiK t idx :: s1.stack,
                  next := s1.next + 1 })

/-- Realizes the contributions in a list left to right, numbering them from `idx`. -/
def getMultiGo (bm : BindingMap) (fuel : Nat) (t : TypeId) :
    Nat → List ResolvedBinding → InjState → Except FruitError (List Ref × InjState)
  | _, [], s => .ok ([], s)
  | idx, rb :: rest, s =>
      match getMulti1 bm fuel t idx rb s with
      | .error e => .error e
      | .ok (r, s1) =>
          match getMultiGo bm fuel t (idx + 1) rest s1 with
          | .error e => .error e
          | .ok (rs, s2) => .ok (r :: rs, s2)

/-- Modelled from the spec: `injector.getMultibindings<T>()`: a stable-ordered sequence
of references, one per multibinding contribution for `T`, in the flatten order of their
declarations (spec §4.E "Operation: getMultibindings", §8 "Multibinding order"). -/
def getMultibindings (bm : BindingMap) (fuel : Nat) (t : TypeId) (s : InjState) :
    Except FruitError (List Ref × InjState) :=
  getMultiGo bm fuel t 0 (bm.multiFor t) s

/-- The construction order of an injector state: the keys in order of first
construction (the construction stack holds the most recent first). -/
def constructionOrder (s : InjState) : List IKey :=
  s.stack.reverse

/-- Modelled from the spec: teardown destroys the memoized instances in reverse
construction-stack order (spec §4.E "Teardown"): the stack lists constructed keys most
recent first, so the destruction sequence is the stack read front to back, each key's
memoized reference in turn. `Instance` bindings never enter the stack, so they are not
destroyed. Returns the sequence of destroyed references. -/
def teardown (s : InjState) : List Ref :=
  s.stack.filterMap (lookupMemo s)

/-!
The declaration surface of the `PartialComponent` class template
(src/include/fruit/partial_component.h), transcribed as data so that the access-control
and value-category discipline the header imposes on client code can be stated.
-/

/-- A C++ member access specifier. -/
inductive Access where
  | publicA
  | protectedA
  | privateA
deriving DecidableEq, Repr

/-- One method of the builder surface, as declared in the header: its name, whether it
is declared with the `&&` ref-qualifier (invocable only on an rvalue, consuming the
object it is called on), and whether its return type is again a `PartialComponent`
(the header's `fruit::impl::FunctorResult<...>` return types; each method's comment
reads "Returns a PartialComponent"). -/
structure MethodDecl where
  name : String
  rvalueQualified : Bool
  returnsPartialComponent : Bool
deriving DecidableEq, Repr

/-- The declaration surface of a C++ class: the access of its default constructor, its
friend declarations, which special member functions are user-declared, and its public
methods. -/
structure ClassDecl where
  name : String
  defaultCtorAccess : Access
  friends : List String
  hasUserMoveCtor : Bool
  hasUserCopyCtor : Bool
  methods : List MethodDecl
deriving DecidableEq, Repr

/-- Transcribed from src/include/fruit/partial_component.h lines 32-275: the declaration
surface of `template <typename... Params> class PartialComponent`. The default
constructor is declared in the private section (line 40), with `fruit::Component` the
only friend (lines 37-38); the move constructor is user-declared (line 45:
`PartialComponent(PartialComponent&&) = default;`) and no copy constructor is declared;
every builder method is declared with the `&&` ref-qualifier (lines 54, 87, 107, 143,
158, 174, 191, 249, 272) and returns a `FunctorResult<...>` that is again a
`PartialComponent`. -/
def partialComponentDecl : ClassDecl :=
  { name := "PartialComponent",
    defaultCtorAccess := .privateA,
    friends := ["fruit::Component"],
    hasUserMoveCtor := true,
    hasUserCopyCtor := false,
    methods :=
      [ ⟨"bind", true, true⟩,
        ⟨"registerConstructor", true, true⟩,
        ⟨"bindInstance", true, true⟩,
        ⟨"registerProvider", true, true⟩,
        ⟨"addMultibinding", true, true⟩,
        ⟨"addInstanceMultibinding", true, true⟩,
        ⟨"addMultibindingProvider", true, true⟩,
        ⟨"registerFactory", true, true⟩,
        ⟨"install", true, true⟩ ] }

/-- The C++ special-member rule deciding copy-constructibility from a class
declaration: a user-declared move constructor suppresses the implicit copy
constructor, so the class is copy-constructible only if a copy constructor is
user-declared. -/
def copyConstructible (c : ClassDecl) : Bool :=
  c.hasUserCopyCtor || !c.hasUserMoveCtor

/-- Whether client code (not a friend, not the class itself) can default-construct the
class: the default constructor must be public. -/
def clientCanDefaultConstruct (c : ClassDecl) : Bool :=
  c.defaultCtorAccess == .publicA

/-!
Example components used by the theorems below.
-/

/-- Spec §8 scenario 3: registering constructors `A(B)` and `B(A)`, with `A` the TypeId
1 and `B` the TypeId 2. -/
def cycleAB : PartialComponent :=
  (createComponent.registerConstructor ⟨1, [.injected 2]⟩).registerConstructor
    ⟨2, [.injected 1]⟩

/-- A would-be cycle broken by a factory: the constructor of type 2 injects the factory
type 10, and the factory (producing type 1, registered under the callable TypeId 10)
takes type 2 as an assisted parameter. If assisted parameters were edges the graph
would have the cycle 10 → 2 → 10; they are not, so sealing succeeds (spec §4.D.6
"factories break cycles"). -/
def factoryBreak : PartialComponent :=
  ((createComponent.registerConstructor ⟨2, [.injected 10]⟩).registerFactory 10
      ⟨1, [.assisted 2]⟩ ⟨⟨1, [.assisted 2]⟩, [], 5⟩).toOption.getD createComponent

/-- The sealed component of `factoryBreak` (sealing succeeds, see
cycle_detection_dfs). -/
def factoryBreakComp : Component :=
  (factoryBreak.seal []).toOption.getD ⟨⟨[], []⟩, [], []⟩

/-- Spec §8 scenario 5: constructors for types 6 and 7, and two multibindings for the
type 5 ("Plugin") implemented by 6 and 7; type 5 has no normal binding. -/
def pluginMulti : PartialComponent :=
  ((((createComponent.registerConstructor ⟨6, []⟩).registerConstructor
        ⟨7, []⟩).addMultibinding (fun _ _ => true) 5 6).toOption.getD
      createComponent).addMultibinding (fun _ _ => true) 5 7 |>.toOption.getD
    createComponent

/-!
Lemmas about memo lookup.
-/

theorem beq_norm_norm (a b : TypeId) : (IKey.norm a == IKey.norm b) = (a == b) := by
  by_cases h : a = b
  · subst h
    simp
  · simp [h]

theorem beq_norm_multiK (a b : TypeId) (i : Nat) :
    (IKey.norm a == IKey.multiK b i) = false := by
  simp

theorem beq_multiK_norm (a b : TypeId) (i : Nat) :
    (IKey.multiK a i == IKey.norm b) = false := by
  simp

theorem memoLookup_cons_self (m : List (IKey × Ref)) (k : IKey) (r : Ref) :
    memoLookup ((k, r) :: m) k = some r := by
  simp [memoLookup, List.find?]

theorem memoLookup_cons_ne (m : List (IKey × Ref)) (k k' : IKey) (r : Ref)
    (h : ¬ k' = k) : memoLookup ((k', r) :: m) k = memoLookup m k := by
  simp only [memoLookup, List.find?]
  have hb : (k' == k) = false := by simpa using h
  simp [hb]

/-!
Claim theorems: the builder surface.
-/

/-- Claim C10: client code cannot create or duplicate a PartialComponent directly: its
default constructor is private with `fruit::Component` the only friend, the
user-declared move constructor suppresses the implicit copy constructor (move-only),
and every builder method is rvalue-qualified, so a PartialComponent can only be
obtained from `fruit::createComponent()` and threaded through chained calls
(src/include/fruit/partial_component.h lines 32-45 and the method declarations). -/
theorem partialComponent_not_client_constructible :
    clientCanDefaultConstruct partialComponentDecl = false ∧
    partialComponentDecl.defaultCtorAccess = Access.privateA ∧
    partialComponentDecl.friends = ["fruit::Component"] ∧
    copyConstructible partialComponentDecl = false ∧
    partialComponentDecl.hasUserMoveCtor = true ∧
    (partialComponentDecl.methods.all fun m => m.rvalueQualified) = true := by
  exact ⟨rfl, rfl, rfl, rfl, rfl, rfl⟩

/-- Claim C8: every builder operation on a PartialComponent is declared with the `&&`
ref-qualifier — it can only be invoked on an rvalue, consuming the prior value — and
returns a new PartialComponent; together with the suppressed copy constructor this
makes the builder linear: no operation leaves a second usable reference to the prior
partial behind (src/include/fruit/partial_component.h lines 40-57 and spec §3
"Lifecycles"). -/
theorem builder_ops_linear :
    (partialComponentDecl.methods.all fun m =>
      m.rvalueQualified && m.returnsPartialComponent) = true ∧
    copyConstructible partialComponentDecl = false := by
  exact ⟨rfl, rfl⟩

/-- Claim C4: for every pair of TypeIds (I, C) with I not a base class of C, `bind` and
`addMultibinding` are rejected with the NotABaseClassOf(I, C) diagnostic
(src/include/fruit/partial_component.h lines 55 and 159); when I is a base of C both
succeed and `bind` adds I to the provided set (spec §4.C row `bind<I,C>()`). -/
theorem bind_requires_base_class (isBase : TypeId → TypeId → Bool) (i c : TypeId)
    (p : PartialComponent) :
    (isBase i c = false →
      p.bind isBase i c = .error (.notABaseClassOf i c) ∧
      p.addMultibinding isBase i c = .error (.notABaseClassOf i c)) ∧
    (isBase i c = true →
      ∃ q q', p.bind isBase i c = .ok q ∧ i ∈ q.provided ∧
        p.addMultibinding isBase i c = .ok q') := by
  constructor
  · intro h
    simp [PartialComponent.bind, PartialComponent.addMultibinding, h]
  · intro h
    unfold PartialComponent.bind PartialComponent.addMultibinding
    rw [if_pos h, if_pos h]
    exact ⟨_, _, rfl, List.mem_cons_self _ _, rfl⟩

/-- Witness for bind_requires_base_class at concrete inputs: a base-class relation that
rejects (1, 2) makes bind fail with the diagnostic; one that accepts makes both
operations succeed, with 1 provided. -/
theorem bind_requires_base_class_witness :
    createComponent.bind (fun _ _ => false) 1 2 = .error (.notABaseClassOf 1 2) ∧
    ∃ q q', createComponent.bind (fun _ _ => true) 1 2 = .ok q ∧ 1 ∈ q.provided ∧
      createComponent.addMultibinding (fun _ _ => true) 1 2 = .ok q' :=
  ⟨((bind_requires_base_class (fun _ _ => false) 1 2 createComponent).1 rfl).1,
    (bind_requires_base_class (fun _ _ => true) 1 2 createComponent).2 rfl⟩

/-- Claim C5: registerProvider and registerFactory accept only stateless callables: a
callable that carries captured state has no conversion to a plain function pointer of
the signature and the registration is rejected at compile time; a capture-free callable
is accepted (src/include/fruit/partial_component.h lines 139-145 and 243-251, spec §4.C
"Contract"). -/
theorem register_requires_stateless (f : Callable) (p : PartialComponent)
    (fnT : TypeId) (annSig : Signature) :
    (f.captures ≠ [] →
      p.registerProvider f = .error .statefulCallable ∧
      p.registerFactory fnT annSig f = .error .statefulCallable) ∧
    (f.captures = [] →
      (∃ q, p.registerProvider f = .ok q) ∧
        ∃ q', p.registerFactory fnT annSig f = .ok q') := by
  constructor
  · intro h
    constructor
    · simp [PartialComponent.registerProvider, h]
    · simp [PartialComponent.registerFactory, h]
  · intro h
    constructor
    · exact ⟨_, by unfold PartialComponent.registerProvider; rw [if_pos h]⟩
    · exact ⟨_, by unfold PartialComponent.registerFactory; rw [if_pos h]⟩

/-- Witness for register_requires_stateless at concrete inputs: a lambda with one
captured value is rejected by both operations; the same callable without captures is
accepted. -/
theorem register_requires_stateless_witness :
    (createComponent.registerProvider ⟨⟨0, []⟩, [3], 0⟩ = .error .statefulCallable ∧
      createComponent.registerFactory 10 ⟨1, [.assisted 2]⟩ ⟨⟨1, [.assisted 2]⟩, [3], 0⟩ =
        .error .statefulCallable) ∧
    ∃ q, createComponent.registerProvider ⟨⟨0, []⟩, [], 0⟩ = .ok q :=
  ⟨⟨((register_requires_stateless ⟨⟨0, []⟩, [3], 0⟩ createComponent 10
        ⟨1, [.assisted 2]⟩).1 (by simp)).1,
    ((register_requires_stateless ⟨⟨1, [.assisted 2]⟩, [3], 0⟩ createComponent 10
        ⟨1, [.assisted 2]⟩).1 (by simp)).2⟩,
    ((register_requires_stateless ⟨⟨0, []⟩, [], 0⟩ createComponent 10
        ⟨1, [.assisted 2]⟩).2 rfl).1⟩

/-- Claim C7: each operation of the addMultibinding family adds its contribution to the
provided multiset and leaves the required type set unchanged (spec §4.C row
`addMultibinding…`; src/include/fruit/partial_component.h lines 148-193). -/
theorem multibinding_ops_preserve_required (isBase : TypeId → TypeId → Bool)
    (i c t : TypeId) (h : Nat) (f : Callable) (p q q' : PartialComponent) :
    (p.addMultibinding isBase i c = .ok q →
      q.required = p.required ∧ q.providedMulti = i :: p.providedMulti) ∧
    ((p.addInstanceMultibinding t h).required = p.required ∧
      (p.addInstanceMultibinding t h).providedMulti = t :: p.providedMulti) ∧
    (p.addMultibindingProvider f = .ok q' →
      q'.required = p.required ∧ q'.providedMulti = f.sig.ret :: p.providedMulti) := by
  refine ⟨?_, ⟨rfl, rfl⟩, ?_⟩
  · intro hq
    unfold PartialComponent.addMultibinding at hq
    split at hq
    · cases hq
      exact ⟨rfl, rfl⟩
    · cases hq
  · intro hq
    unfold PartialComponent.addMultibindingProvider at hq
    split at hq
    · cases hq
      exact ⟨rfl, rfl⟩
    · cases hq

/-- Witness for multibinding_ops_preserve_required at concrete inputs. -/
theorem multibinding_ops_preserve_required_witness :
    ∃ q, createComponent.addMultibinding (fun _ _ => true) 5 6 = .ok q ∧
      q.required = [] ∧ q.providedMulti = [5] :=
  ⟨_, rfl,
    (multibinding_ops_preserve_required (fun _ _ => true) 5 6 0 0 ⟨⟨0, []⟩, [], 0⟩
        createComponent _ createComponent).1 rfl⟩

/-!
Claim theorems: cycle detection.
-/

/-- Claim C2: sealing a partial whose injected-dependency graph has a cycle fails with
CyclicDependency reporting the cycle path: registering constructors A(B) and B(A) (A =
1, B = 2) makes sealing fail with CyclicDependency([1, 2, 1]). The DFS runs over
injected dependencies only: a factory binding's edges are exactly the injected
dependencies of its signature, membership in which is exactly having an injected (not
assisted) parameter of that TypeId, and the factory example whose only would-be cycle
runs through an assisted parameter seals successfully (spec §4.D.6, §8 scenario 3). -/
theorem cycle_detection_dfs (tgt : TypeId) (sig : Signature) (th : Nat) :
    cycleAB.seal [] = .error (.cyclicDependency [1, 2, 1]) ∧
    (BKind.factB tgt sig th).deps = injectedDeps sig ∧
    (∀ t : TypeId, t ∈ injectedDeps sig ↔ Param.injected t ∈ sig.params) ∧
    factoryBreak.seal [] = .ok factoryBreakComp := by
  refine ⟨?_, rfl, ?_, ?_⟩
  · simp [PartialComponent.seal, sealFlat, cycleAB, createComponent,
      PartialComponent.registerConstructor, flatten, flattenList, normalsOf, multisOf,
      buildNormal, resolveAll, resolveEntry, resolveMultis, stratOf, BKind.target,
      BKind.deps, BKind.isBind, injectedDeps, closureCheck, cycleGo, dfsVisit, dfsList,
      adjOf, followAlias, List.find?, List.enum]
  swap
  · simp [factoryBreakComp, factoryBreak, PartialComponent.seal, sealFlat,
      createComponent, PartialComponent.registerConstructor,
      PartialComponent.registerFactory, Except.toOption, Option.getD, flatten,
      flattenList, normalsOf, multisOf, buildNormal, resolveAll, resolveEntry,
      resolveMultis, stratOf, BKind.target, BKind.deps, BKind.isBind, injectedDeps,
      closureCheck, cycleGo, dfsVisit, dfsList, adjOf, followAlias, List.find?,
      List.enum]
  intro t
  simp only [injectedDeps, List.mem_filterMap]
  constructor
  · rintro ⟨a, ha, hfa⟩
    cases a with
    | injected u =>
        simp only [Option.some.injEq] at hfa
        subst hfa
        exact ha
    | assisted u => cases hfa
  · intro ht
    exact ⟨.injected t, ht, rfl⟩

/-- Witness for cycle_detection_dfs at a concrete signature: for the signature
C(assisted 2, injected 3), TypeId 3 is an edge and TypeId 2 is not. -/
theorem cycle_detection_dfs_witness :
    cycleAB.seal [] = .error (.cyclicDependency [1, 2, 1]) ∧
    (3 ∈ injectedDeps ⟨1, [.assisted 2, .injected 3]⟩ ↔
      Param.injected 3 ∈ [Param.assisted 2, Param.injected 3]) ∧
    ¬ 2 ∈ injectedDeps ⟨1, [.assisted 2, .injected 3]⟩ := by
  refine ⟨(cycle_detection_dfs 0 ⟨0, []⟩ 0).1,
    (cycle_detection_dfs 0 ⟨1, [.assisted 2, .injected 3]⟩ 0).2.2.1 3, ?_⟩
  intro hmem
  have h2 := ((cycle_detection_dfs 0 ⟨1, [.assisted 2, .injected 3]⟩ 0).2.2.1 2).1 hmem
  simp at h2

/-!
Claim theorems: multibindings and normal bindings are independent namespaces.
-/

theorem normalsOf_target_mem : ∀ (fds : List (Bool × BKind)) (n i : Nat) (k : BKind),
    (i, k) ∈ normalsOf fds n → (false, k) ∈ fds
  | [], _, _, _ => by simp [normalsOf]
  | (true, k0) :: rest, n, i, k => by
      intro h
      exact List.mem_cons_of_mem _ (normalsOf_target_mem rest (n + 1) i k h)
  | (false, k0) :: rest, n, i, k => by
      intro h
      rcases List.mem_cons.mp h with h1 | h2
      · cases h1
        exact List.mem_cons_self _ _
      · exact List.mem_cons_of_mem _ (normalsOf_target_mem rest (n + 1) i k h2)

theorem multisOf_snd : ∀ (fds : List (Bool × BKind)) (n : Nat),
    (multisOf fds n).map (fun e => e.2) =
      (fds.filter (fun mk => mk.1)).map (fun mk => mk.2)
  | [], _ => rfl
  | (true, k) :: rest, n => by
      simpa [multisOf] using multisOf_snd rest (n + 1)
  | (false, k) :: rest, n => by
      simpa [multisOf] using multisOf_snd rest (n + 1)

theorem buildNormal_keys :
    ∀ (l : List (Nat × BKind)) (acc res : List (TypeId × Nat × BKind)),
      buildNormal l acc = .ok res → ∀ e ∈ res,
        (∃ a ∈ acc, (a : TypeId × Nat × BKind).1 = e.1) ∨
          ∃ ik ∈ l, BKind.target (ik : Nat × BKind).2 = e.1
  | [], acc, res => by
      intro h e he
      cases h
      exact .inl ⟨e, he, rfl⟩
  | (i, k) :: rest, acc, res => by
      intro h e he
      unfold buildNormal at h
      split at h
      · rcases buildNormal_keys rest _ res h e he with hl | hr
        · rcases hl with ⟨a, ha, hak⟩
          rcases List.mem_append.mp ha with ha1 | ha2
          · exact .inl ⟨a, ha1, hak⟩
          · simp at ha2
            refine .inr ⟨(i, k), List.mem_cons_self _ _, ?_⟩
            rw [← hak, ha2]
        · rcases hr with ⟨ik, hik, hikt⟩
          exact .inr ⟨ik, List.mem_cons_of_mem _ hik, hikt⟩
      · split at h
        · rcases buildNormal_keys rest _ res h e he with hl | hr
          · exact .inl hl
          · rcases hr with ⟨ik, hik, hikt⟩
            exact .inr ⟨ik, List.mem_cons_of_mem _ hik, hikt⟩
        · cases h

theorem resolveEntry_key (ents : List (TypeId × Nat × BKind)) (t0 : TypeId)
    (i : Nat) (k : BKind) (t : TypeId) (rb : ResolvedBinding)
    (h : resolveEntry ents (t0, i, k) = .ok (t, rb)) : t0 = t := by
  cases k with
  | bindB a c =>
      by_cases h1 : c = t0
      · simp [resolveEntry, h1] at h
      · by_cases h2 : (ents.find? (fun e => e.1 == c)).isSome
        · cases hfa : followAlias ents (ents.length + 1) c with
          | error e =>
              simp [resolveEntry, if_neg h1, if_pos h2, hfa] at h
          | ok fin =>
              simp only [resolveEntry, if_neg h1, if_pos h2, hfa,
                Except.ok.injEq, Prod.mk.injEq] at h
              exact h.1
        · simp [resolveEntry, h1, h2] at h
  | ctorB sig =>
      simp only [resolveEntry, Except.ok.injEq, Prod.mk.injEq] at h
      exact h.1
  | instB x hd =>
      simp only [resolveEntry, Except.ok.injEq, Prod.mk.injEq] at h
      exact h.1
  | provB sig th =>
      simp only [resolveEntry, Except.ok.injEq, Prod.mk.injEq] at h
      exact h.1
  | factB x sig th =>
      simp only [resolveEntry, Except.ok.injEq, Prod.mk.injEq] at h
      exact h.1

theorem resolveAll_keys :
    ∀ (ents l : List (TypeId × Nat × BKind)) (res : List (TypeId × ResolvedBinding)),
      resolveAll ents l = .ok res →
        res.map (fun e => e.1) = l.map (fun e => e.1)
  | ents, [], res => by
      intro h
      cases h
      rfl
  | ents, e :: rest, res => by
      intro h
      cases hre : resolveEntry ents e with
      | error err =>
          unfold resolveAll at h
          rw [hre] at h
          cases h
      | ok r =>
          cases hra : resolveAll ents rest with
          | error err =>
              unfold resolveAll at h
              rw [hre, hra] at h
              cases h
          | ok rs =>
              unfold resolveAll at h
              rw [hre, hra] at h
              cases h
              obtain ⟨t0, i, k⟩ := e
              obtain ⟨t, rb⟩ := r
              simp only [List.map_cons]
              rw [resolveAll_keys ents rest rs hra,
                resolveEntry_key ents t0 i k t rb hre]

theorem seal_inv (p : PartialComponent) (req : List TypeId) (comp : Component)
    (h : p.seal req = .ok comp) :
    ∃ norm entries, buildNormal (normalsOf (flatten p) 0) [] = .ok norm ∧
      resolveAll norm norm = .ok entries ∧
      comp.map.normal = entries ∧
      comp.map.multis = resolveMultis (multisOf (flatten p) 0) ∧
      comp.provided = entries.map (fun e => e.1) := by
  unfold PartialComponent.seal sealFlat at h
  cases hnorm : buildNormal (normalsOf (flatten p) 0) [] with
  | error e => simp [hnorm] at h
  | ok norm =>
      cases hentries : resolveAll norm norm with
      | error e => simp [hnorm, hentries] at h
      | ok entries =>
          cases hc : closureCheck (entries.map (fun e => e.1)) req
              (entries ++ resolveMultis (multisOf (flatten p) 0)) with
          | error e => simp [hnorm, hentries, hc] at h
          | ok u =>
              cases hcy : cycleGo (adjOf entries) (entries.length + 1)
                  (entries.map (fun e => e.1)) [] with
              | error e => simp [hnorm, hentries, hc, hcy] at h
              | ok u2 =>
                  simp only [hnorm, hentries, hc, hcy] at h
                  cases h
                  exact ⟨norm, entries, rfl, hentries, rfl, rfl, rfl⟩

theorem lookupN_eq_none (bm : BindingMap) (t : TypeId)
    (h : ∀ e ∈ bm.normal, (e : TypeId × ResolvedBinding).1 ≠ t) :
    bm.lookupN t = none := by
  have hf : bm.normal.find? (fun e => e.1 == t) = none :=
    List.find?_eq_none.mpr (by intro a ha; simpa using h a ha)
  simp [BindingMap.lookupN, hf]

theorem get_of_lookupN_none (bm : BindingMap) (f : Nat) (t : TypeId)
    (h : bm.lookupN t = none) :
    get bm (f + 1) [] t initInj = .error (.unsatisfiedDependency t t) := by
  simp [get, initInj, lookupMemo, memoLookup, List.find?, h]

theorem multiFor_resolveMultis (nm : List (TypeId × ResolvedBinding))
    (ms : List (Nat × BKind)) (t : TypeId) :
    BindingMap.multiFor ⟨nm, resolveMultis ms⟩ t =
      (ms.filter (fun ik => BKind.target ik.2 == t)).map
        (fun ik => ⟨stratOf ik.2, BKind.deps ik.2, ik.1⟩) := by
  simp only [BindingMap.multiFor, resolveMultis, List.filter_map]
  rw [List.map_map]
  rfl

/-- Claim C3: multibindings and normal bindings are independent namespaces: if every
flattened declaration binding T normally is absent (T appears, if at all, only in
multibindings), then T is not a key of the sealed binding map and `get<T>` on a fresh
injector fails with UnsatisfiedDependency; conversely the multibinding contributions
are exactly the multibinding-tagged declarations — a normal binding contributes nothing
to `getMultibindings<T>`, whose contribution list for the sealed map is computed from
the multibinding declarations alone (spec §4.C "Contract", §8 scenario 5;
src/include/fruit/partial_component.h lines 147-161). -/
theorem multibinding_namespace_independent :
    (∀ (p : PartialComponent) (comp : Component) (T : TypeId) (f : Nat),
      p.seal [] = .ok comp →
      (∀ mk ∈ flatten p, (mk : Bool × BKind).1 = false → BKind.target mk.2 ≠ T) →
      get comp.map (f + 1) [] T initInj = .error (.unsatisfiedDependency T T)) ∧
    (∀ (fds : List (Bool × BKind)) (n : Nat),
      (multisOf fds n).map (fun e => e.2) =
        (fds.filter (fun mk => mk.1)).map (fun mk => mk.2)) ∧
    (∀ (p : PartialComponent) (comp : Component) (T : TypeId) (req : List TypeId),
      p.seal req = .ok comp →
      (comp.map.multiFor T).map (fun rb => rb.strategy) =
        ((multisOf (flatten p) 0).filter (fun ik => BKind.target ik.2 == T)).map
          (fun ik => stratOf ik.2)) := by
  refine ⟨?_, multisOf_snd, ?_⟩
  · intro p comp T f hseal hdecl
    obtain ⟨norm, entries, hnorm, hentries, hmnormal, _, _⟩ :=
      seal_inv p [] comp hseal
    apply get_of_lookupN_none
    apply lookupN_eq_none
    intro e he heT
    rw [hmnormal] at he
    have hkeys : e.1 ∈ norm.map (fun a => a.1) := by
      rw [← resolveAll_keys norm norm entries hentries]
      exact List.mem_map.mpr ⟨e, he, rfl⟩
    rcases List.mem_map.mp hkeys with ⟨a, ha, hak⟩
    rcases buildNormal_keys _ _ _ hnorm a ha with hl | hr
    · rcases hl with ⟨b, hb, _⟩
      cases hb
    · rcases hr with ⟨ik, hik, hikt⟩
      obtain ⟨i, k⟩ := ik
      exact hdecl (false, k) (normalsOf_target_mem _ 0 i k hik) rfl
        (by rw [hikt, hak, heT])
  · intro p comp T req hseal
    obtain ⟨norm, entries, _, _, _, hmmulti, _⟩ := seal_inv p req comp hseal
    have hbm : comp.map = ⟨comp.map.normal, resolveMultis (multisOf (flatten p) 0)⟩ := by
      rw [← hmmulti]
    rw [hbm, multiFor_resolveMultis, List.map_map]
    rfl

/-- The sealed component of `pluginMulti` (sealing succeeds, see the witness below). -/
def pluginComp : Component :=
  (pluginMulti.seal []).toOption.getD ⟨⟨[], []⟩, [], []⟩

/-- Witness for multibinding_namespace_independent at spec §8 scenario 5: type 5 has
only multibindings, so `get` of 5 fails with UnsatisfiedDependency while its
multibinding contribution list has the two declared entries. -/
theorem multibinding_namespace_independent_witness :
    get pluginComp.map 1 [] 5 initInj = .error (.unsatisfiedDependency 5 5) ∧
    (pluginComp.map.multiFor 5).map (fun rb => rb.strategy) =
      [.aliasS 6, .aliasS 7] := by
  have hseal : pluginMulti.seal [] = .ok pluginComp := by
    simp [pluginComp, pluginMulti, PartialComponent.seal, sealFlat, createComponent,
      PartialComponent.registerConstructor, PartialComponent.addMultibinding,
      Except.toOption, Option.getD, flatten, flattenList, normalsOf, multisOf,
      buildNormal, resolveAll, resolveEntry, resolveMultis, stratOf, BKind.target,
      BKind.deps, BKind.isBind, injectedDeps, closureCheck, cycleGo, dfsVisit, dfsList,
      adjOf, followAlias, List.find?]
  constructor
  · exact multibinding_namespace_independent.1 pluginMulti pluginComp 5 0 hseal
      (by
        simp [pluginMulti, createComponent, PartialComponent.registerConstructor,
          PartialComponent.addMultibinding, Except.toOption, Option.getD, flatten,
          flattenList, BKind.target])
  · rw [multibinding_namespace_independent.2.2 pluginMulti pluginComp 5 [] hseal]
    simp [pluginMulti, createComponent, PartialComponent.registerConstructor,
      PartialComponent.addMultibinding, Except.toOption, Option.getD, flatten,
      flattenList, multisOf, BKind.target, stratOf]

/-!
Claim theorems: install associativity.
-/

theorem flatNaive_append : ∀ (xs ys : List Decl),
    flatNaive (xs ++ ys) = flatNaive xs ++ flatNaive ys
  | [], ys => by simp [flatNaive]
  | .binding m k :: rest, ys => by
      simp [flatNaive, flatNaive_append rest ys]
  | .installD ds p q r :: rest, ys => by
      simp [flatNaive, flatNaive_append rest ys]

/-- When the install forest contains no repeated partial, flattening never
deduplicates: it equals the naive depth-first concatenation, and the visited list
collects exactly the forest's install nodes. -/
theorem flattenList_no_dedup : ∀ (ds v : List Decl),
    (declsNodes ds).Nodup → (∀ n ∈ declsNodes ds, n ∉ v) →
    (flattenList ds v).1 = flatNaive ds ∧
      (∀ x, x ∈ (flattenList ds v).2 ↔ x ∈ v ∨ x ∈ declsNodes ds)
  | [], v => by
      intro _ _
      simp [flattenList, flatNaive, declsNodes]
  | .binding m k :: rest, v => by
      intro hnd hdisj
      have ih := flattenList_no_dedup rest v (by simpa [declsNodes] using hnd)
        (by intro n hn; exact hdisj n (by simpa [declsNodes] using hn))
      refine ⟨?_, ?_⟩
      · simp [flattenList, flatNaive, ih.1]
      · intro x
        simp only [flattenList, declsNodes]
        exact ih.2 x
  | .installD ds p q r :: rest, v => by
      intro hnd hdisj
      have hnd2 : (Decl.installD ds p q r ∉ declsNodes ds ∧
          Decl.installD ds p q r ∉ declsNodes rest) ∧
          (declsNodes ds ++ declsNodes rest).Nodup := by
        simpa [declsNodes] using hnd
      have hnode : Decl.installD ds p q r ∉ declsNodes ds ++ declsNodes rest := by
        intro hmem
        rcases List.mem_append.mp hmem with hm | hm
        · exact hnd2.1.1 hm
        · exact hnd2.1.2 hm
      have hsub : (declsNodes ds ++ declsNodes rest).Nodup := hnd2.2
      have hndds : (declsNodes ds).Nodup := (List.nodup_append.mp hsub).1
      have hndrest : (declsNodes rest).Nodup := (List.nodup_append.mp hsub).2.1
      have hdisj2 : List.Disjoint (declsNodes ds) (declsNodes rest) :=
        (List.nodup_append.mp hsub).2.2
      have hnv : Decl.installD ds p q r ∉ v :=
        hdisj _ (by simp [declsNodes])
      have ihds := flattenList_no_dedup ds (Decl.installD ds p q r :: v) hndds
        (by
          intro n hn
          simp only [List.mem_cons]
          rintro (rfl | hv)
          · exact hnode (List.mem_append.mpr (.inl hn))
          · exact hdisj n (by simp [declsNodes, List.mem_append, hn]) hv)
      have ihrest := flattenList_no_dedup rest (flattenList ds
          (Decl.installD ds p q r :: v)).2 hndrest
        (by
          intro n hn hmem
          rcases (ihds.2 n).mp hmem with hnv2 | hds2
          · rcases List.mem_cons.mp hnv2 with rfl | hv
            · exact hnode (List.mem_append.mpr (.inr hn))
            · exact hdisj n (by simp [declsNodes, List.mem_append, hn]) hv
          · exact hdisj2 hds2 hn)
      refine ⟨?_, ?_⟩
      · simp only [flattenList, if_neg hnv, flatNaive]
        rw [ihds.1, ihrest.1]
      · intro x
        simp only [flattenList, if_neg hnv, declsNodes]
        rw [ihrest.2 x]
        constructor
        · rintro (hx | hx)
          · rcases (ihds.2 x).mp hx with hx2 | hx2
            · rcases List.mem_cons.mp hx2 with rfl | hv
              · exact .inr (by simp)
              · exact .inl hv
            · exact .inr (by simp [List.mem_append, hx2])
          · exact .inr (by simp [List.mem_append, hx])
        · rintro (hx | hx)
          · exact .inl ((ihds.2 x).mpr (.inl (List.mem_cons_of_mem _ hx)))
          · rcases List.mem_cons.mp hx with rfl | hx2
            · exact .inl ((ihds.2 _).mpr (.inl (List.mem_cons_self _ _)))
            · rcases List.mem_append.mp hx2 with hx3 | hx3
              · exact .inl ((ihds.2 x).mpr (.inr hx3))
              · exact .inr hx3

/-- The partial installed twice in the counterexample below: a user instance bound for
TypeId 0 under the external handle 7. -/
def bX : PartialComponent := createComponent.bindInstance 0 7

/-- Counterexample to claim C6 as stated: with b = c the same partial component,
`a.install(b).install(c)` flattens b's declarations once (the repeated partial is
deduplicated, spec §4.D.1) and seals successfully, while `a.install(b.install(c))`
installs a partial that is distinct from b — b extended by the inner install — so
flattening emits b's instance binding twice and sealing fails with DuplicateBinding:
the two groupings do not seal to the same result. -/
theorem install_assoc_cex :
    ((createComponent.install bX).install bX).seal [] ≠
      (createComponent.install (bX.install bX)).seal [] := by
  simp [PartialComponent.seal, sealFlat, bX, createComponent,
    PartialComponent.bindInstance, PartialComponent.install, flatten, flattenList,
    normalsOf, multisOf, buildNormal, resolveAll, resolveEntry, resolveMultis, stratOf,
    BKind.target, BKind.deps, BKind.isBind, injectedDeps, closureCheck, cycleGo,
    dfsVisit, dfsList, adjOf, followAlias, List.find?]

/-- Claim C6 (amended): install associativity up to declaration renumbering holds
whenever no partial component occurs twice across the install forests of the two
groupings — the dedup of repeated partials (spec §4.D.1) never fires; this is the
situation of three distinct component objects. Then `a.install(b).install(c)` and
`a.install(b.install(c))` seal to identical results, the binding map included. (As
stated, with the same partial installed in both groupings, the claim fails:
install_assoc_cex.) -/
theorem install_assoc_no_shared (a b c : PartialComponent) (req : List TypeId)
    (hL : (declsNodes ((a.install b).install c).decls).Nodup)
    (hR : (declsNodes (a.install (b.install c)).decls).Nodup) :
    ((a.install b).install c).seal req = (a.install (b.install c)).seal req := by
  have h1 := flattenList_no_dedup ((a.install b).install c).decls [] hL (by simp)
  have h2 := flattenList_no_dedup (a.install (b.install c)).decls [] hR (by simp)
  unfold PartialComponent.seal flatten
  rw [h1.1, h2.1]
  simp [PartialComponent.install, flatNaive_append, flatNaive, List.append_assoc]

/-- Witness for install_assoc_no_shared at three distinct concrete partials. -/
theorem install_assoc_no_shared_witness :
    (((createComponent.bindInstance 1 1).install
        (createComponent.bindInstance 2 2)).install
      (createComponent.bindInstance 3 3)).seal [] =
    ((createComponent.bindInstance 1 1).install
      ((createComponent.bindInstance 2 2).install
        (createComponent.bindInstance 3 3))).seal [] := by
  apply install_assoc_no_shared
  · simp [declsNodes, PartialComponent.install, PartialComponent.bindInstance,
      createComponent]
  · simp [declsNodes, PartialComponent.install, PartialComponent.bindInstance,
      createComponent]

/-!
Claim theorems: the injector's memoization and teardown.
-/

/-- A successful `get` leaves its type memoized at the returned reference, and the type
was not mid-construction. -/
theorem memoized_of_get (bm : BindingMap) (f : Nat) (ip : List TypeId) (t : TypeId)
    (s : InjState) (r : Ref) (s' : InjState) (h : get bm f ip t s = .ok (r, s')) :
    t ∉ ip ∧ lookupMemo s' (.norm t) = some r := by
  cases f with
  | zero => simp [get] at h
  | succ f =>
      unfold get at h
      by_cases hip : t ∈ ip
      · simp [hip] at h
      · refine ⟨hip, ?_⟩
        rw [if_neg hip] at h
        cases hm : lookupMemo s (.norm t) with
        | some r0 =>
            simp only [hm] at h
            cases h
            exact hm
        | none =>
            simp only [hm] at h
            cases hbm : bm.lookupN t with
            | none => simp only [hbm] at h; cases h
            | some rb =>
                simp only [hbm] at h
                cases hst : rb.strategy with
                | instS hd =>
                    simp only [hst] at h
                    cases h
                    simp [lookupMemo, memoLookup_cons_self]
                | ctorS sig =>
                    simp only [hst] at h
                    cases hdeps : getMany bm f (t :: ip) rb.deps s with
                    | error e => simp only [hdeps] at h; cases h
                    | ok pr =>
                        obtain ⟨rs, s1⟩ := pr
                        simp only [hdeps] at h
                        cases h
                        simp [lookupMemo, memoLookup_cons_self]
                | provS sig th =>
                    simp only [hst] at h
                    cases hdeps : getMany bm f (t :: ip) rb.deps s with
                    | error e => simp only [hdeps] at h; cases h
                    | ok pr =>
                        obtain ⟨rs, s1⟩ := pr
                        simp only [hdeps] at h
                        cases h
                        simp [lookupMemo, memoLookup_cons_self]
                | factS sig th =>
                    simp only [hst] at h
                    cases h
                    simp [lookupMemo, memoLookup_cons_self]
                | aliasS c =>
                    simp only [hst] at h
                    cases hin : get bm f (t :: ip) c s with
                    | error e => simp only [hin] at h; cases h
                    | ok pr =>
                        obtain ⟨r1, s1⟩ := pr
                        simp only [hin] at h
                        cases h
                        simp [lookupMemo, memoLookup_cons_self]

/-- The teardown invariant of an injector state: the construction stack has no repeated
key; every stacked key is memoized at an injector-owned reference; and every memoized
reference is a user-supplied external handle or the reference of some stacked key. -/
def Inv (s : InjState) : Prop :=
  s.stack.Nodup ∧
  (∀ k ∈ s.stack, ∃ n, lookupMemo s k = some (.owned n)) ∧
  (∀ k r, lookupMemo s k = some r →
    (∃ h, r = Ref.external h) ∨ ∃ k', k' ∈ s.stack ∧ lookupMemo s k' = some r)

theorem inv_initInj : Inv initInj := by
  refine ⟨List.nodup_nil, ?_, ?_⟩
  · intro k hk
    cases hk
  · intro k r hk
    simp [initInj, lookupMemo, memoLookup, List.find?] at hk

/-- How one injector step relates the state before to the state after: existing memo
entries persist; types mid-construction (in `ip`) stay unmemoized; the construction
stack only grows; and the teardown invariant is preserved. -/
def Steps (ip : List TypeId) (s s' : InjState) : Prop :=
  (∀ k rk, lookupMemo s k = some rk → lookupMemo s' k = some rk) ∧
  (∀ x ∈ ip, lookupMemo s (.norm x) = none → lookupMemo s' (.norm x) = none) ∧
  (∃ ks, s'.stack = ks ++ s.stack) ∧
  (Inv s → Inv s')

theorem steps_refl (ip : List TypeId) (s : InjState) : Steps ip s s :=
  ⟨fun _ _ h => h, fun _ _ h => h, ⟨[], rfl⟩, fun h => h⟩

theorem steps_trans (ip : List TypeId) (s s1 s' : InjState)
    (h1 : Steps ip s s1) (h2 : Steps ip s1 s') : Steps ip s s' := by
  obtain ⟨a1, b1, ⟨ks1, hks1⟩, d1⟩ := h1
  obtain ⟨a2, b2, ⟨ks2, hks2⟩, d2⟩ := h2
  exact ⟨fun k rk h => a2 k rk (a1 k rk h),
    fun x hx h => b2 x hx (b1 x hx h),
    ⟨ks2 ++ ks1, by rw [hks2, hks1, List.append_assoc]⟩,
    fun h => d2 (d1 h)⟩

theorem steps_anti (ip ip' : List TypeId) (s s' : InjState)
    (h : Steps ip' s s') (hsub : ∀ x ∈ ip, x ∈ ip') : Steps ip s s' :=
  ⟨h.1, fun x hx => h.2.1 x (hsub x hx), h.2.2⟩

/-- Adding a fresh memo entry for `t` (no stack push): the per-step relation holds,
provided the reference is an external handle or is already the reference of a stacked
key (so the invariant's accounting stays exact). -/
theorem steps_memoAdd (ip : List TypeId) (t : TypeId) (r : Ref) (s1 : InjState)
    (hnone : lookupMemo s1 (.norm t) = none) (hip : t ∉ ip)
    (hr : Inv s1 → (∃ h, r = Ref.external h) ∨
      ∃ k', k' ∈ s1.stack ∧ lookupMemo s1 k' = some r) :
    Steps ip s1 { s1 with memo := (.norm t, r) :: s1.memo } := by
  have hne : ∀ k : IKey, lookupMemo s1 k ≠ none → ¬ IKey.norm t = k := by
    intro k hk he
    rw [← he] at hk
    exact hk hnone
  refine ⟨?_, ?_, ⟨[], rfl⟩, ?_⟩
  · intro k rk hk
    have : lookupMemo { s1 with memo := (.norm t, r) :: s1.memo } k =
        lookupMemo s1 k := by
      simp only [lookupMemo]
      exact memoLookup_cons_ne _ _ _ _ (hne k (by rw [hk]; exact fun h => by cases h))
    rw [this, hk]
  · intro x hx hxn
    have hxt : ¬ IKey.norm t = IKey.norm x := by
      intro he
      cases he
      exact hip hx
    have : lookupMemo { s1 with memo := (.norm t, r) :: s1.memo } (.norm x) =
        lookupMemo s1 (.norm x) := by
      simp only [lookupMemo]
      exact memoLookup_cons_ne _ _ _ _ hxt
    rw [this, hxn]
  · intro hInv
    have hpres : ∀ k : IKey, lookupMemo s1 k ≠ none →
        lookupMemo { s1 with memo := (.norm t, r) :: s1.memo } k = lookupMemo s1 k := by
      intro k hk
      simp only [lookupMemo]
      exact memoLookup_cons_ne _ _ _ _ (hne k hk)
    refine ⟨hInv.1, ?_, ?_⟩
    · intro k hk
      obtain ⟨n, hn⟩ := hInv.2.1 k hk
      exact ⟨n, by rw [hpres k (by rw [hn]; exact fun h => by cases h), hn]⟩
    · intro k r2 hk2
      by_cases hkt : k = .norm t
      · subst hkt
        have : lookupMemo { s1 with memo := (.norm t, r) :: s1.memo } (.norm t) =
            some r := by
          simp only [lookupMemo]
          exact memoLookup_cons_self _ _ _
        rw [this] at hk2
        cases hk2
        rcases hr hInv with hext | ⟨k', hk', hlk⟩
        · exact .inl hext
        · exact .inr ⟨k', hk',
            by rw [hpres k' (by rw [hlk]; exact fun h => by cases h), hlk]⟩
      · have : lookupMemo { s1 with memo := (.norm t, r) :: s1.memo } k =
            lookupMemo s1 k := by
          simp only [lookupMemo]
          exact memoLookup_cons_ne _ _ _ _ (fun he => hkt he.symm)
        rw [this] at hk2
        rcases hInv.2.2 k r2 hk2 with hext | ⟨k', hk', hlk⟩
        · exact .inl hext
        · exact .inr ⟨k', hk',
            by rw [hpres k' (by rw [hlk]; exact fun h => by cases h), hlk]⟩

/-- Constructing an owned instance for `t`: the memo gains a fresh owned reference and
`t` is pushed on the construction stack; the per-step relation holds. -/
theorem steps_constructPush (ip : List TypeId) (t : TypeId) (s1 : InjState)
    (hnone : lookupMemo s1 (.norm t) = none) (hip : t ∉ ip) :
    Steps ip s1 ⟨(.norm t, Ref.owned s1.next) :: s1.memo,
      .norm t :: s1.stack, s1.next + 1⟩ := by
  have hne : ∀ k : IKey, lookupMemo s1 k ≠ none → ¬ IKey.norm t = k := by
    intro k hk he
    rw [← he] at hk
    exact hk hnone
  have hpres : ∀ k : IKey, lookupMemo s1 k ≠ none →
      lookupMemo (⟨(.norm t, Ref.owned s1.next) :: s1.memo,
        .norm t :: s1.stack, s1.next + 1⟩ : InjState) k = lookupMemo s1 k := by
    intro k hk
    simp only [lookupMemo]
    exact memoLookup_cons_ne _ _ _ _ (hne k hk)
  have hself : lookupMemo (⟨(.norm t, Ref.owned s1.next) :: s1.memo,
      .norm t :: s1.stack, s1.next + 1⟩ : InjState) (.norm t) =
      some (Ref.owned s1.next) := by
    simp only [lookupMemo]
    exact memoLookup_cons_self _ _ _
  refine ⟨?_, ?_, ⟨[.norm t], rfl⟩, ?_⟩
  · intro k rk hk
    rw [hpres k (by rw [hk]; exact fun h => by cases h), hk]
  · intro x hx hxn
    have hxt : ¬ IKey.norm t = IKey.norm x := by
      intro he
      cases he
      exact hip hx
    have : lookupMemo (⟨(.norm t, Ref.owned s1.next) :: s1.memo,
        .norm t :: s1.stack, s1.next + 1⟩ : InjState) (.norm x) =
        lookupMemo s1 (.norm x) := by
      simp only [lookupMemo]
      exact memoLookup_cons_ne _ _ _ _ hxt
    rw [this, hxn]
  · intro hInv
    have hnotin : IKey.norm t ∉ s1.stack := by
      intro hmem
      obtain ⟨n, hn⟩ := hInv.2.1 _ hmem
      rw [hnone] at hn
      cases hn
    refine ⟨List.nodup_cons.mpr ⟨hnotin, hInv.1⟩, ?_, ?_⟩
    · intro k hk
      rcases List.mem_cons.mp hk with rfl | hk2
      · exact ⟨s1.next, hself⟩
      · obtain ⟨n, hn⟩ := hInv.2.1 k hk2
        exact ⟨n, by rw [hpres k (by rw [hn]; exact fun h => by cases h), hn]⟩
    · intro k r2 hk2
      by_cases hkt : k = .norm t
      · subst hkt
        rw [hself] at hk2
        cases hk2
        exact .inr ⟨.norm t, List.mem_cons_self _ _, hself⟩
      · have : lookupMemo (⟨(.norm t, Ref.owned s1.next) :: s1.memo,
            .norm t :: s1.stack, s1.next + 1⟩ : InjState) k = lookupMemo s1 k := by
          simp only [lookupMemo]
          exact memoLookup_cons_ne _ _ _ _ (fun he => hkt he.symm)
        rw [this] at hk2
        rcases hInv.2.2 k r2 hk2 with hext | ⟨k', hk', hlk⟩
        · exact .inl hext
        · exact .inr ⟨k', List.mem_cons_of_mem _ hk',
            by rw [hpres k' (by rw [hlk]; exact fun h => by cases h), hlk]⟩

/-- Every successful `get` and `getMany` satisfies the per-step relation: memo entries
persist, mid-construction types stay unmemoized, the stack only grows, and the teardown
invariant is preserved. -/
theorem get_steps (bm : BindingMap) : ∀ (f : Nat),
    (∀ ip t s r s', get bm f ip t s = .ok (r, s') → Steps ip s s') ∧
    (∀ ip ts s rs s', getMany bm f ip ts s = .ok (rs, s') → Steps ip s s') := by
  intro f
  induction f with
  | zero =>
      constructor
      · intro ip t s r s' h
        simp [get] at h
      · intro ip ts s rs s' h
        cases ts with
        | nil =>
            unfold getMany at h
            cases h
            exact steps_refl ip s
        | cons t2 ts2 =>
            unfold getMany at h
            simp [get] at h
  | succ f ih =>
      have hget : ∀ ip t s r s', get bm (f + 1) ip t s = .ok (r, s') →
          Steps ip s s' := by
        intro ip t s r s' h
        unfold get at h
        by_cases hip : t ∈ ip
        · simp [hip] at h
        · rw [if_neg hip] at h
          cases hm : lookupMemo s (.norm t) with
          | some r0 =>
              simp only [hm] at h
              cases h
              exact steps_refl ip s
          | none =>
              simp only [hm] at h
              cases hbm : bm.lookupN t with
              | none => simp only [hbm] at h; cases h
              | some rb =>
                  simp only [hbm] at h
                  cases hst : rb.strategy with
                  | instS hd =>
                      simp only [hst] at h
                      cases h
                      exact steps_memoAdd ip t _ s hm hip (fun _ => .inl ⟨hd, rfl⟩)
                  | ctorS sig =>
                      simp only [hst] at h
                      cases hdeps : getMany bm f (t :: ip) rb.deps s with
                      | error e => simp only [hdeps] at h; cases h
                      | ok pr =>
                          obtain ⟨rs0, s1⟩ := pr
                          simp only [hdeps] at h
                          cases h
                          have hdep := ih.2 (t :: ip) rb.deps s rs0 s1 hdeps
                          have hnone1 : lookupMemo s1 (.norm t) = none :=
                            hdep.2.1 t (List.mem_cons_self _ _) hm
                          exact steps_trans ip s s1 _
                            (steps_anti ip (t :: ip) s s1 hdep
                              (fun x hx => List.mem_cons_of_mem _ hx))
                            (steps_constructPush ip t s1 hnone1 hip)
                  | provS sig th =>
                      simp only [hst] at h
                      cases hdeps : getMany bm f (t :: ip) rb.deps s with
                      | error e => simp only [hdeps] at h; cases h
                      | ok pr =>
                          obtain ⟨rs0, s1⟩ := pr
                          simp only [hdeps] at h
                          cases h
                          have hdep := ih.2 (t :: ip) rb.deps s rs0 s1 hdeps
                          have hnone1 : lookupMemo s1 (.norm t) = none :=
                            hdep.2.1 t (List.mem_cons_self _ _) hm
                          exact steps_trans ip s s1 _
                            (steps_anti ip (t :: ip) s s1 hdep
                              (fun x hx => List.mem_cons_of_mem _ hx))
                            (steps_constructPush ip t s1 hnone1 hip)
                  | factS sig th =>
                      simp only [hst] at h
                      cases h
                      exact steps_constructPush ip t s hm hip
                  | aliasS c =>
                      simp only [hst] at h
                      cases hin : get bm f (t :: ip) c s with
                      | error e => simp only [hin] at h; cases h
                      | ok pr =>
                          obtain ⟨r1, s1⟩ := pr
                          simp only [hin] at h
                          have hdep := ih.1 (t :: ip) c s r1 s1 hin
                          have hnone1 : lookupMemo s1 (.norm t) = none :=
                            hdep.2.1 t (List.mem_cons_self _ _) hm
                          have hmem1 : lookupMemo s1 (.norm c) = some r1 :=
                            (memoized_of_get bm f (t :: ip) c s r1 s1 hin).2
                          cases h
                          exact steps_trans ip s s1 _
                            (steps_anti ip (t :: ip) s s1 hdep
                              (fun x hx => List.mem_cons_of_mem _ hx))
                            (steps_memoAdd ip t _ s1 hnone1 hip
                              (fun hInv1 => hInv1.2.2 (.norm c) _ hmem1))
      refine ⟨hget, ?_⟩
      intro ip ts
      induction ts with
      | nil =>
          intro s rs s' h
          unfold getMany at h
          cases h
          exact steps_refl ip s
      | cons t2 ts2 ihts =>
          intro s rs s' h
          unfold getMany at h
          cases hg : get bm (f + 1) ip t2 s with
          | error e => simp only [hg] at h; cases h
          | ok pr =>
              obtain ⟨r1, s1⟩ := pr
              simp only [hg] at h
              cases hgm : getMany bm (f + 1) ip ts2 s1 with
              | error e => simp only [hgm] at h; cases h
              | ok pr2 =>
                  obtain ⟨rs2, s2⟩ := pr2
                  simp only [hgm] at h
                  have hrest := ihts s1 rs2 s2 hgm
                  have hfirst := hget ip t2 s r1 s1 hg
                  cases h
                  exact steps_trans ip s s1 _ hfirst hrest

/-- Claim C1: on an injector created from a sealed component, `get<T>` returns the same
reference on every call: after a successful `get` of `t` returning `r`, any successful
sequence of further `get` calls leaves `t` memoized at `r`, and getting `t` again
returns exactly `r` without changing the injector state — each non-multibound type has
exactly one realized instance per injector (spec §4.E "Operation: get", §8
"Uniqueness"). -/
theorem get_returns_same_reference (p : PartialComponent) (req : List TypeId)
    (comp : Component) (f f2 : Nat) (t : TypeId) (us : List TypeId)
    (s s' s'' : InjState) (r : Ref) (rs : List Ref)
    (_hseal : p.seal req = .ok comp)
    (h1 : get comp.map f [] t s = .ok (r, s'))
    (h2 : getMany comp.map f2 [] us s' = .ok (rs, s'')) :
    get comp.map f [] t s'' = .ok (r, s'') ∧ lookupMemo s'' (.norm t) = some r := by
  have hmem1 : lookupMemo s' (.norm t) = some r :=
    (memoized_of_get comp.map f [] t s r s' h1).2
  have hmem2 : lookupMemo s'' (.norm t) = some r :=
    ((get_steps comp.map f2).2 [] us s' rs s'' h2).1 _ _ hmem1
  refine ⟨?_, hmem2⟩
  cases f with
  | zero => simp [get] at h1
  | succ f => simp [get, hmem2]

/-- Claim C9: for every sequence of `get` calls on an injector created from a sealed
component, teardown destroys the memoized instances in the exact reverse of their
first-construction order — the destruction sequence is the reversed construction order,
the construction order has no repeats (each instance is constructed once and destroyed
once), every destroyed reference is injector-owned, and every owned memoized reference
is destroyed; values bound with bindInstance are external references and are never
destroyed (spec §4.E "Teardown", §3 invariants 5 and 7, §8 scenario 6). -/
theorem teardown_reverse_construction (p : PartialComponent) (req : List TypeId)
    (comp : Component) (f : Nat) (ts : List TypeId) (rs : List Ref) (s' : InjState)
    (_hseal : p.seal req = .ok comp)
    (h : getMany comp.map f [] ts initInj = .ok (rs, s')) :
    teardown s' = ((constructionOrder s').reverse).filterMap (lookupMemo s') ∧
    (constructionOrder s').Nodup ∧
    (∀ r ∈ teardown s', ∃ n, r = Ref.owned n) ∧
    (∀ k n, lookupMemo s' k = some (.owned n) → Ref.owned n ∈ teardown s') := by
  have hInv : Inv s' :=
    ((get_steps comp.map f).2 [] ts initInj rs s' h).2.2.2 inv_initInj
  refine ⟨?_, ?_, ?_, ?_⟩
  · simp [teardown, constructionOrder, List.reverse_reverse]
  · rw [constructionOrder, List.nodup_reverse]
    exact hInv.1
  · intro r hr
    rcases List.mem_filterMap.mp hr with ⟨k, hk, hlk⟩
    obtain ⟨n, hn⟩ := hInv.2.1 k hk
    rw [hn] at hlk
    cases hlk
    exact ⟨n, rfl⟩
  · intro k n hk
    rcases hInv.2.2 k _ hk with hext | ⟨k', hk', hlk⟩
    · obtain ⟨h0, he⟩ := hext
      cases he
    · exact List.mem_filterMap.mpr ⟨k', hk', hlk⟩

/-- Spec §8 scenario 1 extended: constructors for types 3 and 2 (with 2 injecting 3), a
user-supplied instance bound for type 4 under external handle 9, and type 1 bound to
the implementation 2. -/
def chainP : PartialComponent :=
  ((((createComponent.registerConstructor ⟨3, []⟩).registerConstructor
      ⟨2, [.injected 3]⟩).bindInstance 4 9).bind (fun _ _ => true) 1 2).toOption.getD
    createComponent

/-- The sealed component of `chainP` (sealing succeeds, see the witnesses below). -/
def chainComp : Component :=
  (chainP.seal []).toOption.getD ⟨⟨[], []⟩, [], []⟩

/-- The result of the first `get` of type 1 on a fresh injector over `chainComp`. -/
def c1Run1 : Ref × InjState :=
  match get chainComp.map 5 [] 1 initInj with
  | .ok pr => pr
  | .error _ => (.owned 0, initInj)

/-- The result of then getting types 4 and 3. -/
def c1Run2 : List Ref × InjState :=
  match getMany chainComp.map 5 [] [4, 3] c1Run1.2 with
  | .ok pr => pr
  | .error _ => ([], initInj)

/-- Witness for get_returns_same_reference on `chainComp`: get 1, then get 4 and 3;
getting 1 again returns the original reference and leaves the state unchanged. -/
theorem get_returns_same_reference_witness :
    get chainComp.map 5 [] 1 c1Run2.2 = .ok (c1Run1.1, c1Run2.2) ∧
    lookupMemo c1Run2.2 (.norm 1) = some c1Run1.1 :=
  get_returns_same_reference chainP [] chainComp 5 5 1 [4, 3] initInj c1Run1.2
    c1Run2.2 c1Run1.1 c1Run2.1
    (by
      simp [chainComp, chainP, PartialComponent.seal, sealFlat, createComponent,
        PartialComponent.registerConstructor, PartialComponent.bindInstance,
        PartialComponent.bind, Except.toOption, Option.getD, flatten, flattenList,
        normalsOf, multisOf, buildNormal, resolveAll, resolveEntry, resolveMultis,
        stratOf, BKind.target, BKind.deps, BKind.isBind, injectedDeps, closureCheck,
        cycleGo, dfsVisit, dfsList, adjOf, followAlias, List.find?])
    (by
      simp [c1Run1, get, getMany, lookupMemo, memoLookup, BindingMap.lookupN, initInj,
        beq_norm_norm, beq_norm_multiK, beq_multiK_norm,
        chainComp, chainP, PartialComponent.seal, sealFlat, createComponent,
        PartialComponent.registerConstructor, PartialComponent.bindInstance,
        PartialComponent.bind, Except.toOption, Option.getD, flatten, flattenList,
        normalsOf, multisOf, buildNormal, resolveAll, resolveEntry, resolveMultis,
        stratOf, BKind.target, BKind.deps, BKind.isBind, injectedDeps, closureCheck,
        cycleGo, dfsVisit, dfsList, adjOf, followAlias, List.find?])
    (by
      simp [c1Run2, c1Run1, get, getMany, lookupMemo, memoLookup, BindingMap.lookupN,
        initInj, beq_norm_norm, beq_norm_multiK, beq_multiK_norm, chainComp, chainP, PartialComponent.seal, sealFlat, createComponent,
        PartialComponent.registerConstructor, PartialComponent.bindInstance,
        PartialComponent.bind, Except.toOption, Option.getD, flatten, flattenList,
        normalsOf, multisOf, buildNormal, resolveAll, resolveEntry, resolveMultis,
        stratOf, BKind.target, BKind.deps, BKind.isBind, injectedDeps, closureCheck,
        cycleGo, dfsVisit, dfsList, adjOf, followAlias, List.find?])

/-- The result of getting types 1, 4 and 3 on a fresh injector over `chainComp`. -/
def c9Run : List Ref × InjState :=
  match getMany chainComp.map 5 [] [1, 4, 3] initInj with
  | .ok pr => pr
  | .error _ => ([], initInj)

/-- Witness for teardown_reverse_construction on `chainComp` after getting 1, 4, 3. -/
theorem teardown_reverse_construction_witness :
    teardown c9Run.2 =
      ((constructionOrder c9Run.2).reverse).filterMap (lookupMemo c9Run.2) ∧
    (constructionOrder c9Run.2).Nodup ∧
    (∀ r ∈ teardown c9Run.2, ∃ n, r = Ref.owned n) ∧
    (∀ k n, lookupMemo c9Run.2 k = some (.owned n) →
      Ref.owned n ∈ teardown c9Run.2) :=
  teardown_reverse_construction chainP [] chainComp 5 [1, 4, 3] c9Run.1 c9Run.2
    (by
      simp [chainComp, chainP, PartialComponent.seal, sealFlat, createComponent,
        PartialComponent.registerConstructor, PartialComponent.bindInstance,
        PartialComponent.bind, Except.toOption, Option.getD, flatten, flattenList,
        normalsOf, multisOf, buildNormal, resolveAll, resolveEntry, resolveMultis,
        stratOf, BKind.target, BKind.deps, BKind.isBind, injectedDeps, closureCheck,
        cycleGo, dfsVisit, dfsList, adjOf, followAlias, List.find?])
    (by
      simp [c9Run, get, getMany, lookupMemo, memoLookup, BindingMap.lookupN, initInj,
        beq_norm_norm, beq_norm_multiK, beq_multiK_norm,
        chainComp, chainP, PartialComponent.seal, sealFlat, createComponent,
        PartialComponent.registerConstructor, PartialComponent.bindInstance,
        PartialComponent.bind, Except.toOption, Option.getD, flatten, flattenList,
        normalsOf, multisOf, buildNormal, resolveAll, resolveEntry, resolveMultis,
        stratOf, BKind.target, BKind.deps, BKind.isBind, injectedDeps, closureCheck,
        cycleGo, dfsVisit, dfsList, adjOf, followAlias, List.find?])

end Fruit
